import Mathlib

/-!
Verification development for the fantasy-data-store stats aggregation and
valuation pipeline (src/scripts/build_stats_and_usage.py and
src/scripts/trade_values.py).

Modelling conventions:
* Python numeric values are modelled as `ℚ` (floats idealised as exact
  rationals); `round(x, d)` is modelled as round-half-even on rationals.
* A Python dict field that may be missing is an `Option` field; `None` is
  `none`.  Python truthiness on numbers (`0`/`0.0` falsy) and on strings
  (`""` falsy) is modelled by `truthyQ` / `truthyS`, and the expression
  `a or b` by `pyOr` / `pyOrS`.
* Raw stat-row values can in Python also be strings, which `_num` coerces
  to `0.0`; the embedding restricts stat values to numeric-or-absent,
  matching every behaviour the claims quantify over.
* Stateful dict accumulation (defaultdict group-by in insertion order) is
  modelled as: first-occurrence deduplication of the traversal keys
  (`dedupFirst`) followed by a per-key pass over the filtered rows, which
  computes exactly the same per-key totals in the same key order.
* Python `list.sort` (a stable sort by a key tuple) is modelled with
  `List.insertionSort`, which is also stable; the claims only use
  sortedness and permutation, which determine the result up to ties.
-/

namespace FDS

/-- Python truthiness of a numeric-or-absent value: `None` and `0` are falsy. -/
def truthyQ : Option ℚ → Bool
  | none => false
  | some x => x ≠ 0

/-- Python truthiness of a string-or-absent value: `None` and `""` are falsy. -/
def truthyS : Option String → Bool
  | none => false
  | some s => s ≠ ""

/-- Python `a or b` on numeric-or-absent values. -/
def pyOr (a b : Option ℚ) : Option ℚ := if truthyQ a then a else b

/-- Python `a or b` on string-or-absent values. -/
def pyOrS (a b : Option String) : Option String := if truthyS a then a else b

/-- `_num` from build_stats_and_usage.py: a missing value contributes `0.0`. -/
def num (v : Option ℚ) : ℚ := v.getD 0

/-- Python `str(pid)` where `pid` may be `None` (`str(None) = "None"`). -/
def strOpt : Option String → String
  | none => "None"
  | some s => s

/-- Value of a string-or-absent field, blank when absent. -/
def getS : Option String → String
  | none => ""
  | some s => s

/-- Round-half-even to an integer, the rounding mode of Python `round`. -/
def rhe {α : Type} [LinearOrderedField α] [FloorRing α]
    [DecidableRel ((· < ·) : α → α → Prop)] (x : α) : ℤ :=
  let f := Int.floor x
  if x - (f : α) < 1/2 then f
  else if (1 : α)/2 < x - (f : α) then f + 1
  else if f % 2 = 0 then f else f + 1

/-- Python `round(x, 2)` on rationals. -/
def pyRound2 (x : ℚ) : ℚ := ((rhe (x * 100) : ℤ) : ℚ) / 100

/-- Python `round(x, 1)` on rationals. -/
def pyRound1 (x : ℚ) : ℚ := ((rhe (x * 10) : ℤ) : ℚ) / 10

/-- Python `round(x, 1)` on reals (used by trade_values.py, where the
blended score involves a square root). -/
noncomputable def pyRound1R (x : ℝ) : ℝ := ((rhe (x * 10) : ℤ) : ℝ) / 10

/-- League scoring configuration: the ten recognized stat-kind weights
(`get_league_scoring` keys). -/
structure Scoring where
  pass_yd : ℚ
  pass_td : ℚ
  pass_int : ℚ
  rush_yd : ℚ
  rush_td : ℚ
  recw : ℚ          -- models the source key named rec (a reserved word in Lean)
  rec_yd : ℚ
  rec_td : ℚ
  fumbles_lost : ℚ
  two_pt : ℚ
deriving DecidableEq

/-- The built-in default (PPR-style) weights of `get_league_scoring`. -/
def default_scoring : Scoring :=
  { pass_yd := 4/100, pass_td := 4, pass_int := -1
  , rush_yd := 1/10, rush_td := 6
  , recw := 1, rec_yd := 1/10, rec_td := 6
  , fumbles_lost := -2, two_pt := 2 }

/-- External `scoring_settings`: any of the ten keys may be absent. -/
structure ExtScoring where
  pass_yd : Option ℚ
  pass_td : Option ℚ
  pass_int : Option ℚ
  rush_yd : Option ℚ
  rush_td : Option ℚ
  recw : Option ℚ
  rec_yd : Option ℚ
  rec_td : Option ℚ
  fumbles_lost : Option ℚ
  two_pt : Option ℚ
deriving DecidableEq

/-- `get_league_scoring`: `s.setdefault(k, v)` for each default, i.e. an
external value is kept whenever the key is present (even if `0`), and the
built-in default fills in a missing key. -/
def get_league_scoring (s : ExtScoring) : Scoring :=
  { pass_yd := s.pass_yd.getD (4/100)
  , pass_td := s.pass_td.getD 4
  , pass_int := s.pass_int.getD (-1)
  , rush_yd := s.rush_yd.getD (1/10)
  , rush_td := s.rush_td.getD 6
  , recw := s.recw.getD 1
  , rec_yd := s.rec_yd.getD (1/10)
  , rec_td := s.rec_td.getD 6
  , fumbles_lost := s.fumbles_lost.getD (-2)
  , two_pt := s.two_pt.getD 2 }

/-- The raw numeric stat fields read by `fantasy_points`, with every alias
key spelling the source consults. -/
structure Stats where
  pass_yd : Option ℚ
  pass_yds : Option ℚ
  pass_td : Option ℚ
  pass_int : Option ℚ
  rush_yd : Option ℚ
  rush_yds : Option ℚ
  rush_td : Option ℚ
  recw : Option ℚ          -- models the source key named rec
  receptions : Option ℚ
  rec_yd : Option ℚ
  rec_yds : Option ℚ
  rec_td : Option ℚ
  fum_lost : Option ℚ
  fumbles_lost : Option ℚ
  two_pt : Option ℚ
  two_ptm : Option ℚ
  two_pt_conv : Option ℚ
deriving DecidableEq

/-- A `Stats` record with every field absent. -/
def emptyStats : Stats :=
  { pass_yd := none, pass_yds := none, pass_td := none, pass_int := none
  , rush_yd := none, rush_yds := none, rush_td := none
  , recw := none, receptions := none
  , rec_yd := none, rec_yds := none, rec_td := none
  , fum_lost := none, fumbles_lost := none
  , two_pt := none, two_ptm := none, two_pt_conv := none }

/-- `fantasy_points` from build_stats_and_usage.py, line for line:
weighted sum of the ten recognized kinds (alias chains via Python `or`),
rounded to 2 decimals. -/
def fantasy_points (stats : Stats) (sc : Scoring) : ℚ :=
  pyRound2 (
      num (pyOr stats.pass_yd stats.pass_yds) * sc.pass_yd
    + num stats.pass_td * sc.pass_td
    + num stats.pass_int * sc.pass_int
    + num (pyOr stats.rush_yd stats.rush_yds) * sc.rush_yd
    + num stats.rush_td * sc.rush_td
    + num (pyOr stats.recw stats.receptions) * sc.recw
    + num (pyOr stats.rec_yd stats.rec_yds) * sc.rec_yd
    + num stats.rec_td * sc.rec_td
    + num (pyOr stats.fum_lost stats.fumbles_lost) * sc.fumbles_lost
    + num (pyOr stats.two_pt (pyOr stats.two_ptm stats.two_pt_conv)) * sc.two_pt)

/-- The ten recognized stat kinds. -/
inductive Kind where
  | passYd | passTd | passInt | rushYd | rushTd | recK | recYd | recTd | fumLost | twoPt
deriving DecidableEq

/-- The ten kinds as a list. -/
def kinds : List Kind :=
  [.passYd, .passTd, .passInt, .rushYd, .rushTd, .recK, .recYd, .recTd, .fumLost, .twoPt]

/-- The stat value the source uses for a kind (the alias chain of
`fantasy_points`). -/
def statVal (s : Stats) : Kind → ℚ
  | .passYd => num (pyOr s.pass_yd s.pass_yds)
  | .passTd => num s.pass_td
  | .passInt => num s.pass_int
  | .rushYd => num (pyOr s.rush_yd s.rush_yds)
  | .rushTd => num s.rush_td
  | .recK => num (pyOr s.recw s.receptions)
  | .recYd => num (pyOr s.rec_yd s.rec_yds)
  | .recTd => num s.rec_td
  | .fumLost => num (pyOr s.fum_lost s.fumbles_lost)
  | .twoPt => num (pyOr s.two_pt (pyOr s.two_ptm s.two_pt_conv))

/-- The configured weight for a kind. -/
def scWeight (sc : Scoring) : Kind → ℚ
  | .passYd => sc.pass_yd
  | .passTd => sc.pass_td
  | .passInt => sc.pass_int
  | .rushYd => sc.rush_yd
  | .rushTd => sc.rush_td
  | .recK => sc.recw
  | .recYd => sc.rec_yd
  | .recTd => sc.rec_td
  | .fumLost => sc.fumbles_lost
  | .twoPt => sc.two_pt

/-- The declared alias key spellings of a kind, in priority order. -/
def aliasesOf (s : Stats) : Kind → List (Option ℚ)
  | .passYd => [s.pass_yd, s.pass_yds]
  | .passTd => [s.pass_td]
  | .passInt => [s.pass_int]
  | .rushYd => [s.rush_yd, s.rush_yds]
  | .rushTd => [s.rush_td]
  | .recK => [s.recw, s.receptions]
  | .recYd => [s.rec_yd, s.rec_yds]
  | .recTd => [s.rec_td]
  | .fumLost => [s.fum_lost, s.fumbles_lost]
  | .twoPt => [s.two_pt, s.two_ptm, s.two_pt_conv]

/-- Reference reading of an alias chain: the first alias that is present
with a nonzero value, `0` when there is none.  (This is what the source's
`_num(a or b or ...)` actually computes; stated separately so the alias
behaviour can be characterised.) -/
def firstNonzero : List (Option ℚ) → ℚ
  | [] => 0
  | none :: rest => firstNonzero rest
  | some x :: rest => if x = 0 then firstNonzero rest else x

/-- One raw weekly stat record as consumed by `build_week_stats`: loosely
typed keys, any of which may be absent. -/
structure RawRecord where
  player_id : Option String
  team : Option String
  player_team : Option String
  opponent : Option String
  opp : Option String
  name : Option String        -- ignored by the normalizer (see claim C9)
  position : Option String    -- ignored by the normalizer (see claim C9)
  tgt : Option ℚ
  targets : Option ℚ
  rush_att : Option ℚ
  rushing_att : Option ℚ
  att_rush : Option ℚ
  stats : Stats
deriving DecidableEq

/-- A raw record with every field absent. -/
def emptyRaw : RawRecord :=
  { player_id := none, team := none, player_team := none
  , opponent := none, opp := none, name := none, position := none
  , tgt := none, targets := none
  , rush_att := none, rushing_att := none, att_rush := none
  , stats := emptyStats }

/-- One player-catalog entry (the fields the normalizer reads). -/
structure CatEntry where
  full_name : Option String
  name : Option String
  team : Option String
  position : Option String
deriving DecidableEq

/-- A catalog entry with every field absent (`catalog.get(pid, {})`). -/
def emptyCat : CatEntry :=
  { full_name := none, name := none, team := none, position := none }

/-- The player catalog: identity string to metadata entry. -/
def Catalog : Type := List (String × CatEntry)

/-- One canonical (normalized) weekly record. -/
structure Row where
  player_id : String
  name : Option String
  team : Option String
  pos : Option String
  opp : Option String
  stats : Stats
  targets : ℚ
  rush_att : ℚ
  fantasy_pts : ℚ
deriving DecidableEq

/-- `meta = catalog.get(str(pid), {}) if pid else {}`: the catalog entry
applied to a raw record, `{}` when the id is falsy or unknown. -/
def metaOf (catalog : Catalog) (r : RawRecord) : CatEntry :=
  if truthyS r.player_id
  then (List.lookup (strOpt r.player_id) catalog).getD emptyCat
  else emptyCat

/-- The loop body of `build_week_stats`: normalize one raw record.
The numeric stat fields of the raw record are carried into the row
verbatim, so the `fantasy_points(row, sc)` call of the source sees exactly
`r`'s stat fields. -/
def normRow (catalog : Catalog) (sc : Scoring) (r : RawRecord) : Row :=
  let meta : CatEntry := metaOf catalog r
  { player_id := strOpt r.player_id
  , name := pyOrS meta.full_name meta.name
  , team := pyOrS r.team (pyOrS r.player_team meta.team)
  , pos := meta.position
  , opp := pyOrS r.opponent r.opp
  , stats := r.stats
  , targets := num (pyOr r.tgt r.targets)
  , rush_att := num (pyOr r.rush_att (pyOr r.rushing_att r.att_rush))
  , fantasy_pts := fantasy_points r.stats sc }

/-- `build_week_stats`: every raw record is normalized and appended;
there is no drop path in the loop. -/
def build_week_stats (catalog : Catalog) (sc : Scoring) (rows : List RawRecord) : List Row :=
  rows.map (normRow catalog sc)

/-- First-occurrence deduplication with an accumulator of already-seen
keys; models the key set and insertion order of a Python (default)dict
built by traversal. -/
def dedupFirstAux {α : Type} [DecidableEq α] : List α → List α → List α
  | [], _ => []
  | x :: xs, seen =>
    if x ∈ seen then dedupFirstAux xs seen else x :: dedupFirstAux xs (x :: seen)

/-- First-occurrence deduplication. -/
def dedupFirst {α : Type} [DecidableEq α] (l : List α) : List α := dedupFirstAux l []

/-- One season-to-date output row. -/
structure SznRow where
  player_id : String
  name : Option String
  pos : Option String
  games : ℕ
  ppg : ℚ
  tgt_pg : ℚ
  rush_att_pg : ℚ
deriving DecidableEq

/-- The per-player aggregate of `build_szn_to_date`: the defaultdict
accumulation over all weekly rows with this `player_id`, in traversal
order.  `g = max(1, games)`; rates are rounded to 2 decimals; `name` and
`pos` keep the first truthy value seen (`a["name"] or r.get("name")`). -/
def mkSzn (all : List Row) (pid : String) : SznRow :=
  let rs := all.filter (fun r => r.player_id = pid)
  let g : ℚ := ((max 1 rs.length : ℕ) : ℚ)
  { player_id := pid
  , name := (rs.map (fun r => r.name)).foldl pyOrS none
  , pos := (rs.map (fun r => r.pos)).foldl pyOrS none
  , games := rs.length
  , ppg := pyRound2 (((rs.map (fun r => r.fantasy_pts)).sum) / g)
  , tgt_pg := pyRound2 (((rs.map (fun r => r.targets)).sum) / g)
  , rush_att_pg := pyRound2 (((rs.map (fun r => r.rush_att)).sum) / g) }

/-- Sort key comparison of `build_szn_to_date`:
`key=lambda x` with the pair of minus ppg and the name field coalesced to
the empty string. -/
def sznle (a b : SznRow) : Prop :=
  b.ppg < a.ppg ∨ (a.ppg = b.ppg ∧ getS a.name ≤ getS b.name)

instance : DecidableRel sznle := fun a b => by unfold sznle; infer_instance

instance : IsTrans SznRow sznle := by
  constructor
  rintro a b c (h1 | ⟨h1, h1'⟩) (h2 | ⟨h2, h2'⟩)
  · exact Or.inl (lt_trans h2 h1)
  · exact Or.inl (h2 ▸ h1)
  · exact Or.inl (h1 ▸ h2)
  · exact Or.inr ⟨h1.trans h2, le_trans h1' h2'⟩

instance : IsTotal SznRow sznle := by
  constructor
  intro a b
  rcases lt_trichotomy a.ppg b.ppg with h | h | h
  · exact Or.inr (Or.inl h)
  · rcases le_total (getS a.name) (getS b.name) with h' | h'
    · exact Or.inl (Or.inr ⟨h, h'⟩)
    · exact Or.inr (Or.inr ⟨h.symm, h'⟩)
  · exact Or.inl (Or.inl h)

/-- The season-to-date total fantasy points of a player id over a flat
row history (what the defaultdict accumulates into `a["fantasy_pts"]`). -/
def totFp (all : List Row) (pid : String) : ℚ :=
  ((all.filter (fun r => r.player_id = pid)).map (fun r => r.fantasy_pts)).sum

/-- The season-to-date total targets of a player id. -/
def totTg (all : List Row) (pid : String) : ℚ :=
  ((all.filter (fun r => r.player_id = pid)).map (fun r => r.targets)).sum

/-- The season-to-date total rush attempts of a player id. -/
def totRa (all : List Row) (pid : String) : ℚ :=
  ((all.filter (fun r => r.player_id = pid)).map (fun r => r.rush_att)).sum

/-- `build_szn_to_date`: fold all weekly record sets into one row per
player id (insertion order of the defaultdict = first-occurrence order of
ids in traversal), then sort by points-per-game descending with name
ascending as tie-break. -/
def build_szn_to_date (weekly : List (List Row)) : List SznRow :=
  let all := weekly.flatten
  List.insertionSort sznle ((dedupFirst (all.map (fun r => r.player_id))).map (mkSzn all))

/-- One usage-share output row. -/
structure ShareRow where
  player_id : String
  name : Option String
  team : String
  pos : Option String
  targets : ℚ
  rush_att : ℚ
  target_share : ℚ
  carry_share : ℚ
deriving DecidableEq

/-- The team of a row if truthy (`if not team: continue`). -/
def teamKey (r : Row) : Option String := if truthyS r.team then r.team else none

/-- `totals_tgt[team]`: summed targets of the rows with this truthy team. -/
def tot_tgt (rows : List Row) (t : String) : ℚ :=
  ((rows.filter (fun r => teamKey r = some t)).map (fun r => r.targets)).sum

/-- `totals_car[team]`: summed rush attempts of the rows with this truthy team. -/
def tot_car (rows : List Row) (t : String) : ℚ :=
  ((rows.filter (fun r => teamKey r = some t)).map (fun r => r.rush_att)).sum

/-- The share row `build_usage_shares` appends for a row with truthy team
`t`, given the team-total functions: share = count/total*100 rounded to
1 decimal, with an explicit `0.0` when the total is not positive. -/
def mkShareRow (tt tc : String → ℚ) (r : Row) (t : String) : ShareRow :=
  { player_id := r.player_id
  , name := r.name
  , team := t
  , pos := r.pos
  , targets := r.targets
  , rush_att := r.rush_att
  , target_share := if 0 < tt t then pyRound1 (r.targets / tt t * 100) else 0
  , carry_share := if 0 < tc t then pyRound1 (r.rush_att / tc t * 100) else 0 }

/-- The second loop of `build_usage_shares` with the totals fixed: rows
with a falsy team are skipped (`continue`), every other row yields one
share row. -/
def sharesList (tt tc : String → ℚ) (rows : List Row) : List ShareRow :=
  rows.filterMap (fun r => (teamKey r).map (mkShareRow tt tc r))

/-- `build_usage_shares`: team totals over the week's rows, then one share
row per row with a truthy team. -/
def build_usage_shares (rows : List Row) : List ShareRow :=
  sharesList (tot_tgt rows) (tot_car rows) rows

/-- One defense-vs-position output row. -/
structure SosRow where
  def_team : String
  pos : String
  pts_allowed_pg : ℚ
  games : ℕ
deriving DecidableEq

/-- The (opponent, position) key of a row when both are truthy
(`if not opp or not pos: continue`). -/
def oppPos (r : Row) : Option (String × String) :=
  if truthyS r.opp && truthyS r.pos then some (getS r.opp, getS r.pos) else none

/-- Per-(defense, position) aggregate of `build_sos_defense_vs_pos`. -/
def mkSos (all : List Row) (k : String × String) : SosRow :=
  let rs := all.filter (fun r => oppPos r = some k)
  { def_team := k.1
  , pos := k.2
  , pts_allowed_pg := pyRound2 (((rs.map (fun r => r.fantasy_pts)).sum) / ((max 1 rs.length : ℕ) : ℚ))
  , games := rs.length }

/-- Sort key comparison of `build_sos_defense_vs_pos`:
`key=lambda x: (x["pos"], -x["pts_allowed_pg"])`. -/
def sosle (a b : SosRow) : Prop :=
  a.pos < b.pos ∨ (a.pos = b.pos ∧ b.pts_allowed_pg ≤ a.pts_allowed_pg)

instance : DecidableRel sosle := fun a b => by unfold sosle; infer_instance

/-- `build_sos_defense_vs_pos` over the full weekly history. -/
def build_sos_defense_vs_pos (history : List (List Row)) : List SosRow :=
  let all := history.flatten
  List.insertionSort sosle ((dedupFirst (all.filterMap oppPos)).map (mkSos all))

/-- The weeks `main` fetches, in order: the current week first
(`weekly_rows = [this_week]`), then `for w in range(1, WEEK)`. -/
def weeks_fed (W : ℕ) : List ℕ := W :: List.range' 1 (W - 1)

/-- The list of weekly record sets `main` builds, given the (abstract)
per-week fetch-and-normalize result. -/
def main_weekly_rows (fetch : ℕ → List Row) (W : ℕ) : List (List Row) :=
  (weeks_fed W).map fetch

/-- The season-to-date table `main` writes. -/
def main_szn (fetch : ℕ → List Row) (W : ℕ) : List SznRow :=
  build_szn_to_date (main_weekly_rows fetch W)

/-- The defense-vs-position table `main` writes. -/
def main_sos (fetch : ℕ → List Row) (W : ℕ) : List SosRow :=
  build_sos_defense_vs_pos (main_weekly_rows fetch W)

/-- `sum(vals)/len(vals)` in `zscore` (only reached on nonempty input). -/
def mean (vals : List ℚ) : ℚ := vals.sum / (vals.length : ℚ)

/-- The sample variance of `zscore`: squared deviations over
`max(1, n - 1)`. -/
def svar (vals : List ℚ) : ℚ :=
  ((vals.map (fun x => (x - mean vals) ^ 2)).sum) / ((max 1 (vals.length - 1) : ℕ) : ℚ)

/-- `sd = (...)**0.5` in `zscore`. -/
noncomputable def sd (vals : List ℚ) : ℝ := Real.sqrt ((svar vals : ℚ) : ℝ)

/-- `zscore` from trade_values.py: `0.0` on an empty list, otherwise
`(v - m) / (sd or 1.0)` (a zero standard deviation is replaced by `1.0`). -/
noncomputable def zscore (vals : List ℚ) (v : ℚ) : ℝ :=
  if vals = [] then 0
  else (((v : ℚ) : ℝ) - ((mean vals : ℚ) : ℝ)) / (if sd vals = 0 then 1 else sd vals)

/-- One trade-value entry before rank assignment. -/
structure TValue where
  player_id : String
  name : Option String
  pos : Option String
  ppg : ℚ
  value : ℝ

/-- One trade-value entry with both ranks assigned. -/
structure TVRanked where
  player_id : String
  name : Option String
  pos : Option String
  ppg : ℚ
  value : ℝ
  overall_rank : ℕ
  pos_rank : ℕ

/-- Forget the ranks of a ranked entry. -/
def stripRank (e : TVRanked) : TValue :=
  { player_id := e.player_id, name := e.name, pos := e.pos, ppg := e.ppg, value := e.value }

/-- `pos_pool`: the ppg values of a position group, in table order. -/
def pos_pool (players : List SznRow) (q : Option String) : List ℚ :=
  (players.filter (fun p => p.pos = q)).map (fun p => p.ppg)

/-- One entry of the `values` list of trade_values.py:
`score = 50 + 15*z_ppg + 2*tgt + 1.5*car`, rounded to 1 decimal. -/
noncomputable def mkValue (players : List SznRow) (p : SznRow) : TValue :=
  { player_id := p.player_id
  , name := p.name
  , pos := p.pos
  , ppg := p.ppg
  , value := pyRound1R (50 + 15 * zscore (pos_pool players p.pos) p.ppg
      + 2 * ((p.tgt_pg : ℚ) : ℝ) + 1.5 * ((p.rush_att_pg : ℚ) : ℝ)) }

/-- Element comparison for the second and third slot of the trade-values
sort key: Python `<` on a pos/name field is defined only when both sides
are strings; comparing `None` with a string raises TypeError, modelled as
`none`. -/
def pyLtO : Option String → Option String → Option Bool
  | some x, some y => some (decide (x < y))
  | _, _ => none

/-- The Python comparison of two trade-values sort keys
`(-value, pos, name)` (trade_values.py sorts with this key and no
coalescing of missing fields).  Python tuple `<` walks the slots with
`==` and decides at the first unequal slot with `<`: values always
compare, but a value tie falls through to pos (then name), where `None`
versus a string raises TypeError — result `none`.  Two fully equal keys
give `some false` without any element-wise `<`. -/
noncomputable def tvLt (a b : TValue) : Option Bool :=
  if a.value = b.value then
    if a.pos == b.pos then
      if a.name == b.name then some false
      else pyLtO a.name b.name
    else pyLtO a.pos b.pos
  else some (decide (b.value < a.value))

/-- Pairwise definedness of the sort-key comparison over a list of
entries: on such a list every comparison a sort can possibly make is
defined, so the Python sort completes (on a two-element incomparable
list it provably raises instead — see the counterexample to C8). -/
def tvComparable (l : List TValue) : Prop :=
  ∀ a ∈ l, ∀ b ∈ l, (tvLt a b).isSome

/-- Totalized sort-key order used to realize the sort in the model:
missing pos/name fields are read as the empty string.  On the domain
where the Python comparison `tvLt` is defined, `tvle` agrees with it
exactly (proved below in `tvle_iff_not_pyGt`); the two differ only where
Python raises TypeError, which is outside the `tvComparable` domain every
ordering claim is conditioned on. -/
def tvle (a b : TValue) : Prop :=
  b.value < a.value ∨ (a.value = b.value ∧
    (getS a.pos < getS b.pos ∨ (getS a.pos = getS b.pos ∧ getS a.name ≤ getS b.name)))

noncomputable instance : DecidableRel tvle := fun a b => by unfold tvle; infer_instance

instance : IsTrans TValue tvle := by
  constructor
  rintro a b c (h1 | ⟨h1, g1 | ⟨g1, k1⟩⟩) (h2 | ⟨h2, g2 | ⟨g2, k2⟩⟩)
  · exact Or.inl (lt_trans h2 h1)
  · exact Or.inl (lt_of_eq_of_lt h2.symm h1)
  · exact Or.inl (lt_of_eq_of_lt h2.symm h1)
  · exact Or.inl (lt_of_lt_of_eq h2 h1.symm)
  · exact Or.inr ⟨h1.trans h2, Or.inl (lt_trans g1 g2)⟩
  · exact Or.inr ⟨h1.trans h2, Or.inl (lt_of_lt_of_eq g1 g2)⟩
  · exact Or.inl (lt_of_lt_of_eq h2 h1.symm)
  · exact Or.inr ⟨h1.trans h2, Or.inl (lt_of_eq_of_lt g1 g2)⟩
  · exact Or.inr ⟨h1.trans h2, Or.inr ⟨g1.trans g2, le_trans k1 k2⟩⟩

instance : IsTotal TValue tvle := by
  constructor
  intro a b
  rcases lt_trichotomy a.value b.value with h | h | h
  · exact Or.inr (Or.inl h)
  · rcases lt_trichotomy (getS a.pos) (getS b.pos) with g | g | g
    · exact Or.inl (Or.inr ⟨h, Or.inl g⟩)
    · rcases le_total (getS a.name) (getS b.name) with k | k
      · exact Or.inl (Or.inr ⟨h, Or.inr ⟨g, k⟩⟩)
      · exact Or.inr (Or.inr ⟨h.symm, Or.inr ⟨g.symm, k⟩⟩)
    · exact Or.inr (Or.inr ⟨h.symm, Or.inl g⟩)
  · exact Or.inl (Or.inl h)

/-- The two rank-assignment passes of trade_values.py, fused: walking the
sorted list, `overall_rank` enumerates from 1, and `pos_rank` enumerates
from 1 within each position group (the `by_pos` lists preserve the sorted
order, so an entry's `pos_rank` is one more than the number of earlier
same-position entries). -/
def assignRanks : List TValue → ℕ → (Option String → ℕ) → List TVRanked
  | [], _, _ => []
  | v :: vs, i, cnt =>
    { player_id := v.player_id, name := v.name, pos := v.pos, ppg := v.ppg, value := v.value
    , overall_rank := i, pos_rank := cnt v.pos + 1 }
      :: assignRanks vs (i + 1) (fun q => if q = v.pos then cnt q + 1 else cnt q)

/-- `main` of trade_values.py on a season-to-date table: build the value
entries, sort by the key tuple, assign overall and within-position ranks.
The sort is realized with the totalized order `tvle`; the program's own
comparison is the partial `tvLt` and the sort raises TypeError when it
hits an undefined comparison, so this function models the program only on
tables whose entries are pairwise comparable (`tvComparable`). -/
noncomputable def trade_values (players : List SznRow) : List TVRanked :=
  assignRanks (List.insertionSort tvle (players.map (mkValue players))) 1 (fun _ => 0)

/-- The stat record of the spec's scoring scenario:
pass_yd 300, pass_td 2, rush_yd 0, rec 0, everything else absent. -/
def scenStats : Stats :=
  { emptyStats with pass_yd := some 300, pass_td := some 2, rush_yd := some 0, recw := some 0 }

/-- The external scoring settings of the spec's scoring scenario:
pass_yd 0.04 and pass_td 4 supplied, everything else left to default. -/
def scenExt : ExtScoring :=
  { pass_yd := some (4/100), pass_td := some 4, pass_int := none
  , rush_yd := none, rush_td := none, recw := none, rec_yd := none
  , rec_td := none, fumbles_lost := none, two_pt := none }

/-- A stat record whose first `pass_yd` alias is present with value 0
while the later `pass_yds` alias is present with value 100. -/
def aliasStats : Stats :=
  { emptyStats with pass_yd := some 0, pass_yds := some 100 }

/-- A one-entry catalog whose entry carries a full_name (concrete test
data). -/
def cat9 : Catalog :=
  [(("p1" : String),
    { full_name := some ("CatName"), name := none, team := none, position := none })]

/-- A raw record that itself supplies a name and a position (concrete test
data). -/
def raw9 : RawRecord :=
  { emptyRaw with player_id := some ("p1"), name := some ("RawName"), position := some ("WR") }

/-- A raw record with a truthy team and no identity (concrete test data). -/
def rawT : RawRecord := { emptyRaw with team := some ("KC") }

/-- A canonical row with given identity, metadata and usage numbers
(concrete test data for the witnesses below). -/
def testRow (pid : String) (nm team pos opp : Option String) (tgt ra fp : ℚ) : Row :=
  { player_id := pid, name := nm, team := team, pos := pos, opp := opp
  , stats := emptyStats, targets := tgt, rush_att := ra, fantasy_pts := fp }

/-- A week where team A has one player with 0 targets and a second row
has no team at all (concrete test data). -/
def rows5 : List Row :=
  [testRow ("a") none (some ("A")) none none 0 0 0,
   testRow ("b") none none none none 5 0 0]

/-- The spec's usage-share scenario week: two players on one team with
10 and 5 targets (concrete test data). -/
def rows6 : List Row :=
  [testRow ("wr1") none (some ("KC")) none none 10 0 0,
   testRow ("wr2") none (some ("KC")) none none 5 0 0]

/-- A week where one team has three players with targets 3, 2 and 2
(concrete test data; the rounded shares 42.9, 28.6 and 28.6 sum to
100.1). -/
def rows7 : List Row :=
  [testRow ("x1") none (some ("A")) none none 3 0 0,
   testRow ("x2") none (some ("A")) none none 2 0 0,
   testRow ("x3") none (some ("A")) none none 2 0 0]

/-- A one-row week (concrete test data). -/
def wk2 : List Row := [testRow ("a") (some ("A")) none none none 2 3 10]

/-- A two-week history in which one player appears in both weeks
(concrete test data). -/
def weekly2 : List (List Row) := [wk2, wk2]

/-- A one-player season-to-date table (concrete test data). -/
def p0 : SznRow :=
  { player_id := "q1", name := none, pos := none
  , games := 1, ppg := 8, tgt_pg := 0, rush_att_pg := 0 }

/-- The single ranked trade-value entry produced from `[p0]`
(concrete test data). -/
noncomputable def e0 : TVRanked :=
  { player_id := "q1", name := none, pos := none, ppg := 8
  , value := (mkValue [p0] p0).value, overall_rank := 1, pos_rank := 1 }

/-- An uncatalogued season-to-date row: pos and name both missing
(concrete test data). -/
def p1c : SznRow :=
  { player_id := "u1", name := none, pos := none
  , games := 1, ppg := 0, tgt_pg := 0, rush_att_pg := 0 }

/-- A catalogued season-to-date row with the same blended value as `p1c`
(concrete test data). -/
def p2c : SznRow :=
  { player_id := "u2", name := some ("Nm"), pos := some ("RB")
  , games := 1, ppg := 0, tgt_pg := 0, rush_att_pg := 0 }

/-- A two-player table whose entries tie at value 50 with one missing and
one present pos, so the one comparison the sort makes is None-versus-str
(concrete test data). -/
def psc : List SznRow := [p1c, p2c]

/-! ### Helper lemmas -/

section Rounding

variable {α : Type} [LinearOrderedField α] [FloorRing α]
variable [DecidableRel ((· < ·) : α → α → Prop)]

theorem rhe_def (x : α) :
    rhe x = (if x - ((⌊x⌋ : ℤ) : α) < 1/2 then ⌊x⌋
      else if (1 : α)/2 < x - ((⌊x⌋ : ℤ) : α) then ⌊x⌋ + 1
      else if ⌊x⌋ % 2 = 0 then ⌊x⌋ else ⌊x⌋ + 1) := rfl

theorem rhe_eq_of_lt (x : α) (n : ℤ) (h1 : (n : α) ≤ x) (h2 : x < (n : α) + 1/2) :
    rhe x = n := by
  have hfl : ⌊x⌋ = n := Int.floor_eq_iff.mpr ⟨h1, by linarith⟩
  rw [rhe_def, hfl, if_pos (by linarith)]

theorem rhe_eq_of_gt (x : α) (n : ℤ) (h1 : (n : α) + 1/2 < x) (h2 : x < (n : α) + 1) :
    rhe x = n + 1 := by
  have hfl : ⌊x⌋ = n := Int.floor_eq_iff.mpr ⟨by linarith, h2⟩
  rw [rhe_def, hfl, if_neg (by linarith), if_pos (by linarith)]

theorem rhe_le (x : α) : ((rhe x : ℤ) : α) ≤ x + 1/2 := by
  have hle := Int.floor_le x
  have hgt := Int.lt_floor_add_one x
  rw [rhe_def]
  split_ifs <;> push_cast <;> linarith

end Rounding

theorem pyRound1_le (x : ℚ) : pyRound1 x ≤ x + 1/20 := by
  have h := rhe_le (α := ℚ) (x * 10)
  unfold pyRound1
  linarith

theorem pyRound2_eq_of_lt (x : ℚ) (n : ℤ) (h1 : (n : ℚ) ≤ x * 100)
    (h2 : x * 100 < (n : ℚ) + 1/2) : pyRound2 x = (n : ℚ) / 100 := by
  unfold pyRound2
  rw [rhe_eq_of_lt _ n h1 h2]

theorem pyRound2_eq_of_gt (x : ℚ) (n : ℤ) (h1 : (n : ℚ) + 1/2 < x * 100)
    (h2 : x * 100 < (n : ℚ) + 1) : pyRound2 x = ((n : ℚ) + 1) / 100 := by
  unfold pyRound2
  rw [rhe_eq_of_gt _ n h1 h2]
  push_cast
  ring

theorem pyRound1_eq_of_lt (x : ℚ) (n : ℤ) (h1 : (n : ℚ) ≤ x * 10)
    (h2 : x * 10 < (n : ℚ) + 1/2) : pyRound1 x = (n : ℚ) / 10 := by
  unfold pyRound1
  rw [rhe_eq_of_lt _ n h1 h2]

theorem pyRound1_eq_of_gt (x : ℚ) (n : ℤ) (h1 : (n : ℚ) + 1/2 < x * 10)
    (h2 : x * 10 < (n : ℚ) + 1) : pyRound1 x = ((n : ℚ) + 1) / 10 := by
  unfold pyRound1
  rw [rhe_eq_of_gt _ n h1 h2]
  push_cast
  ring

theorem num_fn1 (a : Option ℚ) : num a = firstNonzero [a] := by
  cases a with
  | none => rfl
  | some x =>
    by_cases h : x = 0 <;> simp [num, firstNonzero, h]

theorem num_fn2 (a b : Option ℚ) : num (pyOr a b) = firstNonzero [a, b] := by
  cases a with
  | none =>
    cases b with
    | none => rfl
    | some y => by_cases hy : y = 0 <;> simp [pyOr, truthyQ, num, firstNonzero, hy]
  | some x =>
    by_cases h : x = 0
    · cases b with
      | none => simp [pyOr, truthyQ, num, firstNonzero, h]
      | some y => by_cases hy : y = 0 <;> simp [pyOr, truthyQ, num, firstNonzero, h, hy]
    · simp [pyOr, truthyQ, num, firstNonzero, h]

theorem num_fn3 (a b c : Option ℚ) :
    num (pyOr a (pyOr b c)) = firstNonzero [a, b, c] := by
  cases a with
  | none =>
    have h1 : pyOr none (pyOr b c) = pyOr b c := by simp [pyOr, truthyQ]
    rw [h1, num_fn2]
    rfl
  | some x =>
    by_cases h : x = 0
    · subst h
      have h1 : pyOr (some 0) (pyOr b c) = pyOr b c := by simp [pyOr, truthyQ]
      rw [h1, num_fn2]
      simp [firstNonzero]
    · simp [pyOr, truthyQ, num, firstNonzero, h]

theorem statVal_eq (s : Stats) (k : Kind) :
    statVal s k = firstNonzero (aliasesOf s k) := by
  cases k <;>
    first
      | exact num_fn1 _
      | exact num_fn2 _ _
      | exact num_fn3 _ _ _

theorem fantasy_points_eq_sum (s : Stats) (sc : Scoring) :
    fantasy_points s sc
      = pyRound2 ((kinds.map (fun k => statVal s k * scWeight sc k)).sum) := by
  unfold fantasy_points
  congr 1
  simp [kinds, statVal, scWeight]
  ring

/-! ### Claims C1 and C3 (Scoring Engine and field aliasing) -/

/-- Claim C1: for every weekly record set and every scoring configuration,
each output row's fantasy_pts equals the sum over the ten recognized stat
kinds of the record's stat value times the configured weight for that
kind, with absent kinds contributing 0, rounded to 2 decimal places; in
particular, config pass_yd=0.04 and pass_td=4 with others default applied
to a record with pass_yd=300, pass_td=2, rush_yd=0, rec=0 yields
fantasy_pts = 20.0. -/
theorem C1_fantasy_points_weighted_sum (catalog : Catalog) (sc : Scoring)
    (rows : List RawRecord) :
    (∀ row ∈ build_week_stats catalog sc rows,
        row.fantasy_pts
          = pyRound2 ((kinds.map (fun k => statVal row.stats k * scWeight sc k)).sum))
    ∧ fantasy_points scenStats (get_league_scoring scenExt) = 20 := by
  constructor
  · intro row hrow
    rcases List.mem_map.mp hrow with ⟨r, _, rfl⟩
    exact fantasy_points_eq_sum r.stats sc
  · have h : fantasy_points scenStats (get_league_scoring scenExt) = pyRound2 20 := by
      unfold fantasy_points
      congr 1
      norm_num [scenStats, scenExt, emptyStats, get_league_scoring, pyOr, truthyQ, num]
    rw [h, pyRound2_eq_of_lt 20 2000 (by norm_num) (by norm_num)]
    norm_num

/-- Witness for C1: the general part of the claim applied to the one-row
week built from the empty raw record. -/
theorem C1_witness :
    (normRow ([] : Catalog) default_scoring emptyRaw).fantasy_pts
      = pyRound2 ((kinds.map (fun k =>
          statVal (normRow ([] : Catalog) default_scoring emptyRaw).stats k
            * scWeight default_scoring k)).sum) :=
  (C1_fantasy_points_weighted_sum [] default_scoring [emptyRaw]).1 _
    (by simp [build_week_stats])

/-- Counterexample to C3 as stated: with `pass_yd` present and equal to 0
and `pass_yds` present and equal to 100, the value used is 100 (the first
*truthy* alias), not 0 as the claim's first-present-wins reading demands —
under default weights the scored points are 4.0, not 0.0; likewise the
normalizer's `targets` uses the later alias 7 when `tgt` is present and 0. -/
theorem C3_counterexample :
    fantasy_points aliasStats default_scoring = 4
    ∧ ¬ fantasy_points aliasStats default_scoring = 0
    ∧ (normRow ([] : Catalog) default_scoring
        { emptyRaw with tgt := some 0, targets := some 7 }).targets = 7 := by
  have h : fantasy_points aliasStats default_scoring = pyRound2 4 := by
    unfold fantasy_points
    congr 1
    norm_num [aliasStats, emptyStats, default_scoring, pyOr, truthyQ, num]
  have h4 : fantasy_points aliasStats default_scoring = 4 := by
    rw [h, pyRound2_eq_of_lt 4 400 (by norm_num) (by norm_num)]
    norm_num
  refine ⟨h4, by rw [h4]; norm_num, ?_⟩
  show num (pyOr (some 0) (some 7)) = 7
  norm_num [pyOr, truthyQ, num]

/-- Claim C3 (amended): the value used for an aliased stat kind — both by
the Scoring Engine and by the Normalizer's usage helpers — is the value of
the first alias that is present *with a nonzero value*, in the fixed
declared priority order (0 when no present alias is nonzero); in
particular a first alias present with value 0 falls through to a later
nonzero alias instead of pinning the value to 0. -/
theorem C3_alias_first_truthy (s : Stats) (sc : Scoring) (catalog : Catalog)
    (r : RawRecord) :
    (∀ k, statVal s k = firstNonzero (aliasesOf s k))
    ∧ fantasy_points s sc
        = pyRound2 ((kinds.map (fun k => firstNonzero (aliasesOf s k) * scWeight sc k)).sum)
    ∧ (normRow catalog sc r).targets = firstNonzero [r.tgt, r.targets]
    ∧ (normRow catalog sc r).rush_att
        = firstNonzero [r.rush_att, r.rushing_att, r.att_rush] := by
  refine ⟨statVal_eq s, ?_, num_fn2 r.tgt r.targets, num_fn3 _ _ _⟩
  rw [fantasy_points_eq_sum]
  exact congrArg pyRound2 (congrArg List.sum
    (List.map_congr_left (fun k _ => by rw [statVal_eq])))

/-! ### Claims C4 and C9 (Normalizer: identity and metadata) -/

/-- Counterexample to C4 as stated: a raw record with no `player_id` key
is *not* dropped — `build_week_stats` emits exactly one row for it, whose
`player_id` is the Python rendering `str(None) = "None"`. -/
theorem C4_counterexample :
    build_week_stats ([] : Catalog) default_scoring [emptyRaw] ≠ []
    ∧ (build_week_stats ([] : Catalog) default_scoring [emptyRaw]).length = 1
    ∧ (build_week_stats ([] : Catalog) default_scoring [emptyRaw]).map
        (fun row => row.player_id) = ["None"] := by
  refine ⟨by simp [build_week_stats], by simp [build_week_stats], ?_⟩
  simp [build_week_stats, normRow, metaOf, strOpt, emptyRaw, truthyS]

/-- Claim C4 (amended): the normalizer never drops and never aborts:
every raw record — with or without a resolvable identity — produces
exactly one output row, in order, and the row's `player_id` is the string
cast of the identity, which is the literal string None for a record lacking
one. -/
theorem C4_one_row_per_record (catalog : Catalog) (sc : Scoring)
    (rows : List RawRecord) :
    (build_week_stats catalog sc rows).length = rows.length
    ∧ (build_week_stats catalog sc rows).map (fun row => row.player_id)
        = rows.map (fun r => strOpt r.player_id) := by
  refine ⟨by simp [build_week_stats], ?_⟩
  unfold build_week_stats
  rw [List.map_map]
  exact List.map_congr_left (fun r _ => rfl)

/-- Counterexample to C9 as stated: the normalizer does not prefer the
raw record's `name`/`position`: with a raw record supplying the name
RawName and the position WR, and a catalog entry carrying the full_name
CatName and no position, the output row has the catalog name and pos
`none`. -/
theorem C9_counterexample :
    (normRow cat9 default_scoring raw9).name = some ("CatName")
    ∧ raw9.name = some ("RawName")
    ∧ (normRow cat9 default_scoring raw9).name ≠ raw9.name
    ∧ (normRow cat9 default_scoring raw9).pos = none
    ∧ raw9.position = some ("WR")
    ∧ (normRow cat9 default_scoring raw9).pos ≠ raw9.position := by
  refine ⟨?_, rfl, ?_, ?_, rfl, ?_⟩ <;>
    simp [normRow, metaOf, cat9, raw9, emptyRaw, emptyCat, truthyS, strOpt, pyOrS, List.lookup]

/-- Claim C9 (amended): `name` and `pos` are taken only from the catalog
entry (full_name-else-name, and position) and ignore the raw record's own
name/position fields; `team` prefers the raw record (`team`, then
`player_team`) with the catalog team as the last fallback; `opp` comes
only from the raw record (`opponent`, then `opp`); an absent or
inapplicable catalog entry leaves name and pos blank without failing. -/
theorem C9_metadata_from_catalog (catalog catalog' : Catalog) (sc : Scoring)
    (r : RawRecord) (x y : Option String) :
    (normRow catalog sc r).name
        = pyOrS (metaOf catalog r).full_name (metaOf catalog r).name
    ∧ (normRow catalog sc r).pos = (metaOf catalog r).position
    ∧ (normRow catalog sc r).team
        = pyOrS r.team (pyOrS r.player_team (metaOf catalog r).team)
    ∧ (normRow catalog sc r).opp = pyOrS r.opponent r.opp
    ∧ (normRow catalog sc { r with name := x, position := y }).name
        = (normRow catalog sc r).name
    ∧ (normRow catalog sc { r with name := x, position := y }).pos
        = (normRow catalog sc r).pos
    ∧ (normRow catalog' sc r).opp = (normRow catalog sc r).opp
    ∧ (truthyS r.team = true → (normRow catalog sc r).team = r.team)
    ∧ (metaOf catalog r = emptyCat →
        (normRow catalog sc r).name = none
        ∧ (normRow catalog sc r).pos = none
        ∧ (normRow catalog sc r).team = pyOrS r.team (pyOrS r.player_team none)) := by
  refine ⟨rfl, rfl, rfl, rfl, rfl, rfl, rfl, ?_, ?_⟩
  · intro h
    show pyOrS r.team (pyOrS r.player_team (metaOf catalog r).team) = r.team
    simp [pyOrS, h]
  · intro h
    refine ⟨?_, ?_, ?_⟩
    · show pyOrS (metaOf catalog r).full_name (metaOf catalog r).name = none
      rw [h]
      rfl
    · show (metaOf catalog r).position = none
      rw [h]
      rfl
    · show pyOrS r.team (pyOrS r.player_team (metaOf catalog r).team) = _
      rw [h]
      rfl

/-- Witness for C9 at a concrete input: a raw record with a truthy team
and no identity, against the empty catalog. -/
theorem C9_witness :
    (normRow ([] : Catalog) default_scoring rawT).team = rawT.team
    ∧ (normRow ([] : Catalog) default_scoring rawT).name = none := by
  have h := C9_metadata_from_catalog [] [] default_scoring rawT none none
  exact ⟨h.2.2.2.2.2.2.2.1 (by simp [rawT, emptyRaw, truthyS]),
    (h.2.2.2.2.2.2.2.2 (by simp [metaOf, rawT, emptyRaw, truthyS])).1⟩

/-! ### Claims C5 and C6 (Usage Share Calculator) -/

theorem sharesList_length (tt tc : String → ℚ) (rows : List Row) :
    (sharesList tt tc rows).length = rows.countP (fun r => (teamKey r).isSome) := by
  induction rows with
  | nil => rfl
  | cons r rest ih =>
    unfold sharesList at ih ⊢
    cases hk : teamKey r <;>
      simp [List.filterMap_cons, hk, List.countP_cons, ih]

theorem filter_sharesList (tt tc : String → ℚ) (rows : List Row) (t : String) :
    (sharesList tt tc rows).filter (fun s => s.team = t)
      = (rows.filter (fun r => teamKey r = some t)).map (fun r => mkShareRow tt tc r t) := by
  induction rows with
  | nil => rfl
  | cons r rest ih =>
    unfold sharesList at ih ⊢
    cases hk : teamKey r with
    | none => simp [List.filterMap_cons, hk, List.filter_cons, ih]
    | some u =>
      by_cases hu : u = t
      · subst hu
        simp [List.filterMap_cons, hk, List.filter_cons, mkShareRow, ih]
      · simp [List.filterMap_cons, hk, List.filter_cons, mkShareRow, hu, ih]

theorem sum_map_constQ {β : Type} (l : List β) (c : ℚ) :
    (l.map (fun _ => c)).sum = (l.length : ℚ) * c := by
  induction l with
  | nil => simp
  | cons x xs ih =>
    simp [ih]
    ring

theorem share_sum_bound (l : List Row) (T : ℚ) (count share : Row → ℚ)
    (hsum : (l.map count).sum = T)
    (hshare : ∀ r, share r = if 0 < T then pyRound1 (count r / T * 100) else 0) :
    (l.map share).sum ≤ 100 + (l.length : ℚ) / 20 := by
  by_cases hT : 0 < T
  · have h1 : ∀ r ∈ l, share r ≤ count r * (100 / T) + 1/20 := by
      intro r _
      rw [hshare r, if_pos hT]
      calc pyRound1 (count r / T * 100)
          ≤ count r / T * 100 + 1/20 := pyRound1_le _
        _ = count r * (100 / T) + 1/20 := by ring
    calc (l.map share).sum
        ≤ (l.map (fun r => count r * (100 / T) + 1/20)).sum := List.sum_le_sum h1
      _ = (l.map (fun r => count r * (100 / T))).sum
            + (l.map (fun _ => (1:ℚ)/20)).sum := List.sum_map_add
      _ = (l.map count).sum * (100 / T) + (l.length : ℚ) * (1/20) := by
            rw [List.sum_map_mul_right, sum_map_constQ]
      _ = 100 + (l.length : ℚ) / 20 := by
            rw [hsum, mul_comm, div_mul_cancel₀ _ hT.ne']
            ring
  · have h0 : (l.map share).sum = 0 := by
      rw [List.map_congr_left (fun r _ => by rw [hshare r, if_neg hT]), sum_map_constQ]
      exact mul_zero _
    rw [h0]
    positivity

/-- Claim C5: in every week's canonical record set, a player whose team
total for a usage kind is 0 receives a share of exactly 0.0 (the
computation is total — the zero denominator is guarded, never divided
by); and a player with an empty or absent team produces no usage-share
row at all, while every other player produces exactly one. -/
theorem C5_zero_total_and_teamless (rows : List Row) :
    (build_usage_shares rows).length = rows.countP (fun r => (teamKey r).isSome)
    ∧ (∀ s ∈ build_usage_shares rows,
        ∃ r ∈ rows, teamKey r = some s.team
          ∧ s = mkShareRow (tot_tgt rows) (tot_car rows) r s.team)
    ∧ (∀ s ∈ build_usage_shares rows,
        (tot_tgt rows s.team = 0 → s.target_share = 0)
        ∧ (tot_car rows s.team = 0 → s.carry_share = 0)) := by
  have hmem : ∀ s ∈ build_usage_shares rows,
      ∃ r ∈ rows, teamKey r = some s.team
        ∧ s = mkShareRow (tot_tgt rows) (tot_car rows) r s.team := by
    intro s hs
    unfold build_usage_shares sharesList at hs
    rcases List.mem_filterMap.mp hs with ⟨r, hr, heq⟩
    rcases Option.map_eq_some'.mp heq with ⟨u, hku, hmk⟩
    subst hmk
    exact ⟨r, hr, hku, rfl⟩
  refine ⟨sharesList_length _ _ rows, hmem, ?_⟩
  intro s hs
  rcases hmem s hs with ⟨r, _, _, hmk⟩
  constructor
  · intro h0
    rw [hmk]
    show (if 0 < tot_tgt rows s.team then _ else 0) = 0
    rw [if_neg (by rw [h0]; exact lt_irrefl 0)]
  · intro h0
    rw [hmk]
    show (if 0 < tot_car rows s.team then _ else 0) = 0
    rw [if_neg (by rw [h0]; exact lt_irrefl 0)]

/-- Witness for C5 at a concrete input: the week `rows5`, in which team
"A" has total targets 0 and the teamless row is dropped. -/
theorem C5_witness :
    (mkShareRow (tot_tgt rows5) (tot_car rows5)
        (testRow ("a") none (some ("A")) none none 0 0 0) ("A")).target_share = 0 := by
  have h := (C5_zero_total_and_teamless rows5).2.2
    (mkShareRow (tot_tgt rows5) (tot_car rows5)
      (testRow ("a") none (some ("A")) none none 0 0 0) ("A"))
    (by simp [build_usage_shares, sharesList, rows5, teamKey, truthyS, testRow,
          List.filterMap_cons])
  exact h.1 (by simp [tot_tgt, rows5, teamKey, truthyS, testRow, mkShareRow, List.filter_cons])

/-- Counterexample to C6 as stated: in the week `rows7` (one team, three
players with targets 3, 2, 2) the rounded target shares are 42.9, 28.6
and 28.6, which sum to 100.1 > 100. -/
theorem C6_counterexample :
    ¬ ((((build_usage_shares rows7).filter (fun s => s.team = "A")).map
        (fun s => s.target_share)).sum ≤ 100) := by
  have e1 : pyRound1 ((300:ℚ) / 7) = 429/10 := by
    rw [pyRound1_eq_of_gt _ 428 (by norm_num) (by norm_num)]
    norm_num
  have e2 : pyRound1 ((200:ℚ) / 7) = 143/5 := by
    rw [pyRound1_eq_of_gt _ 285 (by norm_num) (by norm_num)]
    norm_num
  have hshares : ((build_usage_shares rows7).filter (fun s => s.team = "A")).map
      (fun s => s.target_share) = [429/10, 143/5, 143/5] := by
    simp [build_usage_shares, sharesList, tot_tgt, tot_car, rows7, teamKey, truthyS,
      testRow, mkShareRow, List.filterMap_cons, List.filter_cons]
    norm_num [e1, e2]
  rw [hshares]
  norm_num

/-- Claim C6 (amended): for every week and every team, the sum of the
rounded target_share values over that team's players is at most
100 + 0.05·n where n is the number of that team's rows (each rounding
adds at most 0.05; the unrounded shares sum to exactly 100), and likewise
for carry_share; the spec's concrete scenario holds: targets 10 and 5 on
one team give shares 66.7 and 33.3. -/
theorem C6_share_sums (rows : List Row) (t : String) :
    ((((build_usage_shares rows).filter (fun s => s.team = t)).map
        (fun s => s.target_share)).sum
      ≤ 100 + ((((build_usage_shares rows).filter (fun s => s.team = t)).length : ℚ)) / 20)
    ∧ ((((build_usage_shares rows).filter (fun s => s.team = t)).map
        (fun s => s.carry_share)).sum
      ≤ 100 + ((((build_usage_shares rows).filter (fun s => s.team = t)).length : ℚ)) / 20)
    ∧ (build_usage_shares rows6).map (fun s => s.target_share) = [667/10, 333/10] := by
  have key := filter_sharesList (tot_tgt rows) (tot_car rows) rows t
  refine ⟨?_, ?_, ?_⟩
  · unfold build_usage_shares
    rw [key, List.map_map, List.length_map]
    exact share_sum_bound _ (tot_tgt rows t) (fun r => r.targets) _ rfl (fun r => rfl)
  · unfold build_usage_shares
    rw [key, List.map_map, List.length_map]
    exact share_sum_bound _ (tot_car rows t) (fun r => r.rush_att) _ rfl (fun r => rfl)
  · have e1 : pyRound1 ((200:ℚ) / 3) = 667/10 := by
      rw [pyRound1_eq_of_gt _ 666 (by norm_num) (by norm_num)]
      norm_num
    have e2 : pyRound1 ((100:ℚ) / 3) = 333/10 := by
      rw [pyRound1_eq_of_lt _ 333 (by norm_num) (by norm_num)]
      norm_num
    simp [build_usage_shares, sharesList, tot_tgt, tot_car, rows6, teamKey, truthyS,
      testRow, mkShareRow, List.filterMap_cons, List.filter_cons]
    norm_num [e1, e2]

/-! ### Claim C2 (Season Aggregator) -/

theorem filter_length_of_nodup (wk : List Row) (pid : String)
    (h : (wk.map (fun r => r.player_id)).Nodup) :
    (wk.filter (fun r => r.player_id = pid)).length
      = if pid ∈ wk.map (fun r => r.player_id) then 1 else 0 := by
  induction wk with
  | nil => simp
  | cons r rest ih =>
    rw [List.map_cons, List.nodup_cons] at h
    obtain ⟨hnotin, hnd⟩ := h
    by_cases hp : r.player_id = pid
    · subst hp
      rw [List.filter_cons, if_pos (by simp), List.map_cons,
        if_pos (List.mem_cons_self _ _)]
      have hrest : rest.filter (fun a => a.player_id = r.player_id) = [] := by
        rw [List.filter_eq_nil_iff]
        intro a ha hcontra
        exact hnotin (by
          rw [← (by simpa using hcontra : a.player_id = r.player_id)]
          exact List.mem_map.mpr ⟨a, ha, rfl⟩)
      simp [hrest]
    · rw [List.filter_cons, if_neg (by simp [hp]), ih hnd, List.map_cons]
      have hne : ¬ pid = r.player_id := fun he => hp he.symm
      simp [List.mem_cons, hne]

theorem games_count (weekly : List (List Row)) (pid : String)
    (h : ∀ wk ∈ weekly, (wk.map (fun r => r.player_id)).Nodup) :
    ((weekly.flatten).filter (fun r => r.player_id = pid)).length
      = weekly.countP (fun wk => decide (pid ∈ wk.map (fun r => r.player_id))) := by
  induction weekly with
  | nil => simp
  | cons wk rest ih =>
    rw [List.flatten_cons, List.filter_append, List.length_append,
      filter_length_of_nodup wk pid (h wk (List.mem_cons_self _ _)),
      ih (fun w hw => h w (List.mem_cons_of_mem _ hw)), List.countP_cons]
    by_cases hm : pid ∈ wk.map (fun r => r.player_id)
    · simp [hm]
      omega
    · simp [hm]

theorem mem_dedupFirstAux {α : Type} [DecidableEq α] (l : List α) (a : α) :
    ∀ seen : List α, (a ∈ dedupFirstAux l seen ↔ a ∈ l ∧ a ∉ seen) := by
  induction l with
  | nil => intro seen; simp [dedupFirstAux]
  | cons x xs ih =>
    intro seen
    by_cases hx : x ∈ seen
    · rw [show dedupFirstAux (x :: xs) seen = dedupFirstAux xs seen from by
        simp [dedupFirstAux, hx], ih seen]
      constructor
      · rintro ⟨hm, hs⟩
        exact ⟨List.mem_cons_of_mem _ hm, hs⟩
      · rintro ⟨hm, hs⟩
        rcases List.mem_cons.mp hm with rfl | hm'
        · exact absurd hx hs
        · exact ⟨hm', hs⟩
    · rw [show dedupFirstAux (x :: xs) seen = x :: dedupFirstAux xs (x :: seen) from by
        simp [dedupFirstAux, hx]]
      by_cases hax : a = x
      · subst hax
        simp [hx]
      · simp only [List.mem_cons, hax, false_or, ih (x :: seen)]

theorem mem_dedupFirst {α : Type} [DecidableEq α] (l : List α) (a : α) :
    a ∈ dedupFirst l ↔ a ∈ l := by
  unfold dedupFirst
  rw [mem_dedupFirstAux]
  simp

/-- Claim C2: over any collection of weekly record sets in which ids are
unique within each week, every season-to-date row's `games` is the number
of weekly sets containing that player's id; `ppg`, `tgt_pg` and
`rush_att_pg` are the corresponding totals divided by `max(1, games)` and
rounded to 2 decimals; every player appearing in the history has a row;
and the table is sorted by ppg descending with name ascending (blank for
a missing name) as tie-break. -/
theorem C2_season_to_date (weekly : List (List Row))
    (h : ∀ wk ∈ weekly, (wk.map (fun r => r.player_id)).Nodup) :
    (∀ row ∈ build_szn_to_date weekly,
        row.games = weekly.countP
            (fun wk => decide (row.player_id ∈ wk.map (fun r => r.player_id)))
        ∧ row.ppg = pyRound2 (totFp weekly.flatten row.player_id
            / ((max 1 row.games : ℕ) : ℚ))
        ∧ row.tgt_pg = pyRound2 (totTg weekly.flatten row.player_id
            / ((max 1 row.games : ℕ) : ℚ))
        ∧ row.rush_att_pg = pyRound2 (totRa weekly.flatten row.player_id
            / ((max 1 row.games : ℕ) : ℚ)))
    ∧ (∀ pid ∈ (weekly.flatten).map (fun r => r.player_id),
        ∃ row ∈ build_szn_to_date weekly, row.player_id = pid)
    ∧ (build_szn_to_date weekly).Pairwise
        (fun a b => b.ppg < a.ppg ∨ (a.ppg = b.ppg ∧ getS a.name ≤ getS b.name)) := by
  refine ⟨?_, ?_, ?_⟩
  · intro row hrow
    simp only [build_szn_to_date] at hrow
    have hrow' := (List.perm_insertionSort sznle _).mem_iff.mp hrow
    rcases List.mem_map.mp hrow' with ⟨pid, _, rfl⟩
    exact ⟨games_count weekly pid h, rfl, rfl, rfl⟩
  · intro pid hpid
    refine ⟨mkSzn weekly.flatten pid, ?_, rfl⟩
    simp only [build_szn_to_date]
    exact (List.perm_insertionSort sznle _).mem_iff.mpr
      (List.mem_map.mpr ⟨pid, (mem_dedupFirst _ _).mpr hpid, rfl⟩)
  · simp only [build_szn_to_date]
    exact List.sorted_insertionSort sznle _

/-- Witness for C2 at a concrete input: the two-week history `weekly2`
with the same one player in both weeks (games = 2). -/
theorem C2_witness :
    (mkSzn weekly2.flatten ("a")).games = weekly2.countP
        (fun wk => decide ((mkSzn weekly2.flatten ("a")).player_id
          ∈ wk.map (fun r => r.player_id)))
    ∧ (mkSzn weekly2.flatten ("a")).ppg
        = pyRound2 (totFp weekly2.flatten (mkSzn weekly2.flatten ("a")).player_id
          / ((max 1 (mkSzn weekly2.flatten ("a")).games : ℕ) : ℚ))
    ∧ (mkSzn weekly2.flatten ("a")).tgt_pg
        = pyRound2 (totTg weekly2.flatten (mkSzn weekly2.flatten ("a")).player_id
          / ((max 1 (mkSzn weekly2.flatten ("a")).games : ℕ) : ℚ))
    ∧ (mkSzn weekly2.flatten ("a")).rush_att_pg
        = pyRound2 (totRa weekly2.flatten (mkSzn weekly2.flatten ("a")).player_id
          / ((max 1 (mkSzn weekly2.flatten ("a")).games : ℕ) : ℚ)) := by
  refine (C2_season_to_date weekly2 ?_).1 (mkSzn weekly2.flatten ("a")) ?_
  · intro wk hwk
    rcases List.mem_cons.mp hwk with rfl | hwk'
    · simp [wk2, testRow]
    · rcases List.mem_cons.mp hwk' with rfl | h0
      · simp [wk2, testRow]
      · simp at h0
  · simp [build_szn_to_date, dedupFirst, dedupFirstAux, weekly2, wk2, testRow,
      List.insertionSort, List.orderedInsert]

/-! ### Claim C7 (trade-value z-score) -/

/-- Claim C7: the z-score function returns 0 on an empty value list;
otherwise it returns `(v - mean) / s` where `s` is the sample standard
deviation (squared deviations over `max(1, n-1)`, then a square root)
with an `s` of 0 replaced by 1.0, so the divisor is never 0 and the
function is total; the spec scenario holds: in the group {10, 20, 30} the
player with ppg 20 gets z-score 0. -/
theorem C7_zscore_total (vals : List ℚ) (v : ℚ) :
    zscore [] v = 0
    ∧ (vals ≠ [] → ∃ s : ℝ, s ≠ 0
        ∧ s = (if Real.sqrt ((svar vals : ℚ) : ℝ) = 0 then 1
            else Real.sqrt ((svar vals : ℚ) : ℝ))
        ∧ zscore vals v = (((v : ℚ) : ℝ) - ((mean vals : ℚ) : ℝ)) / s
        ∧ svar vals = ((vals.map (fun x => (x - mean vals) ^ 2)).sum)
            / ((max 1 (vals.length - 1) : ℕ) : ℚ))
    ∧ zscore [10, 20, 30] 20 = 0 := by
  refine ⟨by simp [zscore], ?_, ?_⟩
  · intro hne
    refine ⟨if sd vals = 0 then 1 else sd vals, ?_, rfl, ?_, rfl⟩
    · by_cases h : sd vals = 0
      · rw [if_pos h]
        exact one_ne_zero
      · rw [if_neg h]
        exact h
    · simp [zscore, hne]
  · have hmean : mean [10, 20, 30] = 20 := by
      simp [mean]
      norm_num
    simp [zscore, hmean]

/-- Witness for C7 at a concrete input: a one-element value list (the
stddev floor case). -/
theorem C7_witness :
    ∃ s : ℝ, s ≠ 0
      ∧ s = (if Real.sqrt ((svar [(5:ℚ)] : ℚ) : ℝ) = 0 then 1
          else Real.sqrt ((svar [(5:ℚ)] : ℚ) : ℝ))
      ∧ zscore [(5:ℚ)] 7 = (((7:ℚ) : ℝ) - ((mean [(5:ℚ)] : ℚ) : ℝ)) / s
      ∧ svar [(5:ℚ)] = (([(5:ℚ)].map (fun x => (x - mean [(5:ℚ)]) ^ 2)).sum)
          / ((max 1 ([(5:ℚ)].length - 1) : ℕ) : ℚ) :=
  (C7_zscore_total [(5:ℚ)] 7).2.1 (by simp)

/-! ### Claim C8 (Trade Value Model) -/

theorem assignRanks_map_strip (l : List TValue) :
    ∀ (i : ℕ) (c : Option String → ℕ), (assignRanks l i c).map stripRank = l := by
  induction l with
  | nil => intro i c; rfl
  | cons v vs ih =>
    intro i c
    simp only [assignRanks, List.map_cons, ih]
    rfl

theorem assignRanks_overall (l : List TValue) :
    ∀ (i : ℕ) (c : Option String → ℕ),
      (assignRanks l i c).map (fun e => e.overall_rank) = List.range' i l.length := by
  induction l with
  | nil => intro i c; rfl
  | cons v vs ih =>
    intro i c
    simp only [assignRanks, List.map_cons, List.length_cons, List.range'_succ, ih]

theorem assignRanks_pos_rank (l : List TValue) (q : Option String) :
    ∀ (i : ℕ) (c : Option String → ℕ),
      ((assignRanks l i c).filter (fun e => e.pos = q)).map (fun e => e.pos_rank)
        = List.range' (c q + 1) (l.countP (fun v => v.pos = q)) := by
  induction l with
  | nil => intro i c; rfl
  | cons v vs ih =>
    intro i c
    by_cases hq : v.pos = q
    · have hc : List.countP (fun v => decide (v.pos = q)) (v :: vs)
          = List.countP (fun v => decide (v.pos = q)) vs + 1 := by
        simp [List.countP_cons, hq]
      rw [show (assignRanks (v :: vs) i c).filter (fun e => e.pos = q)
          = { player_id := v.player_id, name := v.name, pos := v.pos, ppg := v.ppg
            , value := v.value, overall_rank := i, pos_rank := c v.pos + 1 }
            :: (assignRanks vs (i + 1)
                (fun p => if p = v.pos then c p + 1 else c p)).filter
                  (fun e => e.pos = q) from by
        simp [assignRanks, List.filter_cons, hq]]
      rw [List.map_cons, ih, hc, List.range'_succ, if_pos hq.symm, hq]
    · rw [show (assignRanks (v :: vs) i c).filter (fun e => e.pos = q)
          = (assignRanks vs (i + 1)
              (fun p => if p = v.pos then c p + 1 else c p)).filter
                (fun e => e.pos = q) from by
        simp [assignRanks, List.filter_cons, hq]]
      rw [ih, List.countP_cons, if_neg (fun he => hq he.symm),
        if_neg (by simp [hq])]
      simp

theorem pyLtO_eq_some_true {u v : Option String} (h : pyLtO u v = some true) :
    ∃ x y, u = some x ∧ v = some y ∧ x < y := by
  cases u with
  | none => simp [pyLtO] at h
  | some x =>
    cases v with
    | none => simp [pyLtO] at h
    | some y =>
      refine ⟨x, y, rfl, rfl, ?_⟩
      simpa [pyLtO] using h

theorem pyLtO_eq_some_false {u v : Option String} (h : pyLtO u v = some false) :
    ∃ x y, u = some x ∧ v = some y ∧ ¬ x < y := by
  cases u with
  | none => simp [pyLtO] at h
  | some x =>
    cases v with
    | none => simp [pyLtO] at h
    | some y =>
      refine ⟨x, y, rfl, rfl, ?_⟩
      simpa [pyLtO] using h

/-- One direction of the agreement between the totalized order and the
Python key comparison: a `tvle`-ordered pair is never a strict inversion
under the Python key (a strict Python verdict carries its own
definedness, so no comparability hypothesis is needed). -/
theorem tvLt_not_some_true_of_tvle (a b : TValue) (h : tvle a b) :
    tvLt b a ≠ some true := by
  have h' : b.value < a.value ∨ (a.value = b.value ∧
      (getS a.pos < getS b.pos ∨
        (getS a.pos = getS b.pos ∧ getS a.name ≤ getS b.name))) := h
  intro hlt
  unfold tvLt at hlt
  by_cases hv : b.value = a.value
  · rw [if_pos hv] at hlt
    by_cases hp : (b.pos == a.pos) = true
    · rw [if_pos hp] at hlt
      by_cases hn : (b.name == a.name) = true
      · rw [if_pos hn] at hlt
        exact absurd hlt (by simp)
      · rw [if_neg hn] at hlt
        rcases pyLtO_eq_some_true hlt with ⟨x, y, hbx, hay, hxy⟩
        rcases h' with hvlt | ⟨_, hplt | ⟨_, hnle⟩⟩
        · exact absurd hvlt (by rw [hv]; exact lt_irrefl _)
        · rw [eq_of_beq hp] at hplt
          exact absurd hplt (lt_irrefl _)
        · rw [hay, hbx] at hnle
          exact absurd hxy (not_lt.mpr hnle)
    · rw [if_neg hp] at hlt
      rcases pyLtO_eq_some_true hlt with ⟨x, y, hbx, hay, hxy⟩
      rcases h' with hvlt | ⟨_, hplt | ⟨hpeq, _⟩⟩
      · exact absurd hvlt (by rw [hv]; exact lt_irrefl _)
      · rw [hay, hbx] at hplt
        exact lt_asymm hxy hplt
      · rw [hay, hbx] at hpeq
        simp only [getS] at hpeq
        exact lt_irrefl x (hpeq ▸ hxy)
  · rw [if_neg hv] at hlt
    have hab : a.value < b.value := by simpa using hlt
    rcases h' with hvlt | ⟨hveq, _⟩
    · exact lt_asymm hab hvlt
    · exact hv hveq.symm

/-- The other direction of the agreement: a defined non-strict Python
verdict implies the totalized order. -/
theorem tvle_of_tvLt_some_false (a b : TValue) (h : tvLt b a = some false) :
    tvle a b := by
  unfold tvLt at h
  by_cases hv : b.value = a.value
  · rw [if_pos hv] at h
    by_cases hp : (b.pos == a.pos) = true
    · rw [if_pos hp] at h
      by_cases hn : (b.name == a.name) = true
      · exact Or.inr ⟨hv.symm, Or.inr
          ⟨by rw [eq_of_beq hp], le_of_eq (by rw [eq_of_beq hn])⟩⟩
      · rw [if_neg hn] at h
        rcases pyLtO_eq_some_false h with ⟨x, y, hbx, hay, hxy⟩
        refine Or.inr ⟨hv.symm, Or.inr ⟨by rw [eq_of_beq hp], ?_⟩⟩
        rw [hay, hbx]
        exact le_of_not_lt hxy
    · rw [if_neg hp] at h
      rcases pyLtO_eq_some_false h with ⟨x, y, hbx, hay, hxy⟩
      have hne : x ≠ y := by
        intro he
        rw [hbx, hay, he] at hp
        simp at hp
      refine Or.inr ⟨hv.symm, Or.inl ?_⟩
      rw [hay, hbx]
      exact lt_of_le_of_ne (le_of_not_lt hxy) (fun he => hne (by simpa [getS] using he.symm))
  · rw [if_neg hv] at h
    have hnab : ¬ a.value < b.value := by simpa using h
    exact Or.inl (lt_of_le_of_ne (le_of_not_lt hnab) hv)

/-- Wherever the Python key comparison is defined, the totalized `tvle`
agrees with it exactly: the sort the model performs is the sort the
program performs on the `tvComparable` domain. -/
theorem tvle_iff_not_pyGt (a b : TValue) (h : (tvLt b a).isSome) :
    tvle a b ↔ tvLt b a ≠ some true := by
  constructor
  · exact tvLt_not_some_true_of_tvle a b
  · intro hne
    cases hx : tvLt b a with
    | none => rw [hx] at h; simp at h
    | some bb =>
      cases bb with
      | true => exact absurd hx hne
      | false => exact tvle_of_tvLt_some_false a b hx

/-- Counterexample to C8 as stated: on the table `psc` both entries get
blended value 50 (singleton position pools give z-score 0), so the one
comparison the two-element sort performs falls through the value tie to
pos, comparing `None` with a string — undefined (Python TypeError): the
program crashes and produces no ranking at all, refuting the claim's
unconditional quantification over every season-to-date table. -/
theorem C8_counterexample :
    (mkValue psc p1c).value = (mkValue psc p2c).value
    ∧ tvLt (mkValue psc p1c) (mkValue psc p2c) = none
    ∧ tvLt (mkValue psc p2c) (mkValue psc p1c) = none
    ∧ ¬ tvComparable (psc.map (mkValue psc)) := by
  have hp1 : pos_pool psc p1c.pos = [0] := by
    simp [pos_pool, psc, p1c, p2c]
  have hp2 : pos_pool psc p2c.pos = [0] := by
    simp [pos_pool, psc, p1c, p2c]
  have hm0 : mean [(0 : ℚ)] = 0 := by simp [mean]
  have hz0 : zscore [(0 : ℚ)] 0 = 0 := by simp [zscore, hm0]
  have hr : pyRound1R 50 = 50 := by
    unfold pyRound1R
    rw [show (50 : ℝ) * 10 = ((500 : ℤ) : ℝ) by norm_num,
      rhe_eq_of_lt _ 500 (le_refl _) (by norm_num)]
    norm_num
  have hv1 : (mkValue psc p1c).value = 50 := by
    show pyRound1R (50 + 15 * zscore (pos_pool psc p1c.pos) p1c.ppg
      + 2 * ((p1c.tgt_pg : ℚ) : ℝ) + 1.5 * ((p1c.rush_att_pg : ℚ) : ℝ)) = 50
    rw [hp1, show p1c.ppg = 0 from rfl, hz0,
      show (50 : ℝ) + 15 * 0 + 2 * ((p1c.tgt_pg : ℚ) : ℝ)
        + 1.5 * ((p1c.rush_att_pg : ℚ) : ℝ) = 50 by norm_num [p1c]]
    exact hr
  have hv2 : (mkValue psc p2c).value = 50 := by
    show pyRound1R (50 + 15 * zscore (pos_pool psc p2c.pos) p2c.ppg
      + 2 * ((p2c.tgt_pg : ℚ) : ℝ) + 1.5 * ((p2c.rush_att_pg : ℚ) : ℝ)) = 50
    rw [hp2, show p2c.ppg = 0 from rfl, hz0,
      show (50 : ℝ) + 15 * 0 + 2 * ((p2c.tgt_pg : ℚ) : ℝ)
        + 1.5 * ((p2c.rush_att_pg : ℚ) : ℝ) = 50 by norm_num [p2c]]
    exact hr
  have hAB : tvLt (mkValue psc p1c) (mkValue psc p2c) = none := by
    unfold tvLt
    rw [if_pos (hv1.trans hv2.symm), if_neg (by simp [mkValue, p1c, p2c])]
    rfl
  have hBA : tvLt (mkValue psc p2c) (mkValue psc p1c) = none := by
    unfold tvLt
    rw [if_pos (hv2.trans hv1.symm), if_neg (by simp [mkValue, p1c, p2c])]
    rfl
  refine ⟨hv1.trans hv2.symm, hAB, hBA, ?_⟩
  intro hcmp
  have := hcmp (mkValue psc p1c) (by simp [psc]) (mkValue psc p2c) (by simp [psc])
  rw [hAB] at this
  simp at this

/-- Claim C8 (amended): on every season-to-date table whose derived value
entries are pairwise comparable under the Python sort key — i.e. no exact
value tie forces comparing a missing pos or name against a string, which
would raise TypeError and abort the sort — each entry's value is
`round1(50 + 15·z + 2·tgt_pg + 1.5·rush_att_pg)` with z the
position-relative z-score; the output is a permutation of those entries
with values descending and every ordered pair decided by the Python key
itself — strictly below, or keys fully equal — so in particular no
inversion (ties broken by position then name); `overall_rank` enumerates
the sorted order from 1; and within every position group `pos_rank`
enumerates that group's sorted order from 1. -/
theorem C8_trade_values (ps : List SznRow)
    (hcmp : tvComparable (ps.map (mkValue ps))) :
    ((trade_values ps).map (fun e => e.overall_rank) = List.range' 1 ps.length)
    ∧ (∀ q : Option String,
        ((trade_values ps).filter (fun e => e.pos = q)).map (fun e => e.pos_rank)
          = List.range' 1 (((trade_values ps).filter (fun e => e.pos = q)).length))
    ∧ ((trade_values ps).map stripRank).Perm (ps.map (mkValue ps))
    ∧ (trade_values ps).Pairwise
        (fun a b => tvLt (stripRank b) (stripRank a) ≠ some true)
    ∧ (trade_values ps).Pairwise
        (fun a b => tvLt (stripRank a) (stripRank b) = some true
          ∨ (tvLt (stripRank a) (stripRank b) = some false
            ∧ tvLt (stripRank b) (stripRank a) = some false))
    ∧ (trade_values ps).Pairwise (fun a b => b.value ≤ a.value)
    ∧ (∀ e ∈ trade_values ps, ∃ p ∈ ps,
        stripRank e = mkValue ps p
        ∧ e.value = pyRound1R (50 + 15 * zscore (pos_pool ps p.pos) p.ppg
            + 2 * ((p.tgt_pg : ℚ) : ℝ) + 1.5 * ((p.rush_att_pg : ℚ) : ℝ))) := by
  have hms : (trade_values ps).map stripRank
      = List.insertionSort tvle (ps.map (mkValue ps)) :=
    assignRanks_map_strip _ 1 (fun _ => 0)
  have hperm := List.perm_insertionSort tvle (ps.map (mkValue ps))
  have hlen : (List.insertionSort tvle (ps.map (mkValue ps))).length = ps.length := by
    rw [hperm.length_eq, List.length_map]
  have hsorted := List.sorted_insertionSort tvle (ps.map (mkValue ps))
  rw [← hms] at hsorted
  have hpair := List.pairwise_map.mp hsorted
  have hmem : ∀ e ∈ trade_values ps, stripRank e ∈ ps.map (mkValue ps) := by
    intro e he
    have h1 : stripRank e ∈ (trade_values ps).map stripRank :=
      List.mem_map.mpr ⟨e, he, rfl⟩
    rw [hms] at h1
    exact hperm.mem_iff.mp h1
  refine ⟨?_, ?_, ?_, ?_, ?_, ?_, ?_⟩
  · show (assignRanks _ 1 _).map _ = _
    rw [assignRanks_overall, hlen]
  · intro q
    have hcnt : ((trade_values ps).filter (fun e => e.pos = q)).length
        = (List.insertionSort tvle (ps.map (mkValue ps))).countP
            (fun v => v.pos = q) := by
      rw [← List.countP_eq_length_filter, ← hms, List.countP_map]
      rfl
    rw [hcnt]
    exact assignRanks_pos_rank _ q 1 (fun _ => 0)
  · rw [hms]
    exact hperm
  · exact hpair.imp (fun hab => tvLt_not_some_true_of_tvle _ _ hab)
  · refine List.Pairwise.imp_of_mem ?_ hpair
    intro a b ha hb hab
    have hba : tvLt (stripRank b) (stripRank a) = some false := by
      have hs := hcmp (stripRank b) (hmem b hb) (stripRank a) (hmem a ha)
      have hne := tvLt_not_some_true_of_tvle _ _ hab
      cases hx : tvLt (stripRank b) (stripRank a) with
      | none => rw [hx] at hs; simp at hs
      | some bb =>
        cases bb with
        | true => exact absurd hx hne
        | false => rfl
    have hs := hcmp (stripRank a) (hmem a ha) (stripRank b) (hmem b hb)
    cases hx : tvLt (stripRank a) (stripRank b) with
    | none => rw [hx] at hs; simp at hs
    | some bb =>
      cases bb with
      | true => exact Or.inl rfl
      | false => exact Or.inr ⟨rfl, hba⟩
  · refine hpair.imp (fun hab => ?_)
    rcases (hab : _ ∨ _) with h1 | ⟨h2, _⟩
    · exact le_of_lt h1
    · exact le_of_eq h2.symm
  · intro e he
    rcases List.mem_map.mp (hmem e he) with ⟨p, hp, hmk⟩
    refine ⟨p, hp, hmk.symm, ?_⟩
    rw [show e.value = (stripRank e).value from rfl, ← hmk]
    rfl

/-- Witness for C8 at a concrete input: the one-player table `[p0]`,
whose single entry is comparable with itself (key fully equal) and has
value 50 (z-score 0 by the singleton pool). -/
theorem C8_witness :
    ∃ p ∈ [p0], stripRank e0 = mkValue [p0] p
      ∧ e0.value = pyRound1R (50 + 15 * zscore (pos_pool [p0] p.pos) p.ppg
          + 2 * ((p.tgt_pg : ℚ) : ℝ) + 1.5 * ((p.rush_att_pg : ℚ) : ℝ)) := by
  have hcmp : tvComparable ([p0].map (mkValue [p0])) := by
    intro a ha b hb
    rcases List.mem_map.mp ha with ⟨pa, hpa, rfl⟩
    rcases List.mem_map.mp hb with ⟨pb, hpb, rfl⟩
    rcases List.mem_singleton.mp hpa with rfl
    rcases List.mem_singleton.mp hpb with rfl
    unfold tvLt
    rw [if_pos rfl, if_pos (by simp), if_pos (by simp)]
    rfl
  refine (C8_trade_values [p0] hcmp).2.2.2.2.2.2 e0 ?_
  have h : trade_values [p0] = [e0] := by
    simp [trade_values, List.insertionSort, List.orderedInsert, assignRanks,
      e0, mkValue, p0]
  rw [h]
  exact List.mem_singleton.mpr rfl

/-! ### Claim C10 (the week list main feeds the aggregators) -/

/-- Claim C10: for a current week W ≥ 1, the list of weekly record sets
that `main` feeds to both the season-to-date aggregation and the
defense-vs-position aggregation covers each of weeks 1..W exactly once —
the current week's set appears once (not twice) and no week is omitted. -/
theorem C10_weeks_once (W : ℕ) (hW : 1 ≤ W) (w : ℕ) (fetch : ℕ → List Row) :
    (weeks_fed W).count w = (if 1 ≤ w ∧ w ≤ W then 1 else 0)
    ∧ main_szn fetch W = build_szn_to_date ((weeks_fed W).map fetch)
    ∧ main_sos fetch W = build_sos_defense_vs_pos ((weeks_fed W).map fetch) := by
  refine ⟨?_, rfl, rfl⟩
  unfold weeks_fed
  rw [List.count_cons]
  have hnd : (List.range' 1 (W - 1)).Nodup := List.nodup_range' _ _
  have hmem : w ∈ List.range' 1 (W - 1) ↔ 1 ≤ w ∧ w ≤ W - 1 := by
    rw [List.mem_range']
    constructor
    · rintro ⟨i, hi, rfl⟩
      omega
    · rintro ⟨h1, h2⟩
      refine ⟨w - 1, ?_, ?_⟩
      · omega
      · omega
  by_cases hw : w = W
  · have hnm : w ∉ List.range' 1 (W - 1) := by
      rw [hmem]
      omega
    rw [List.count_eq_zero_of_not_mem hnm,
      show (W == w) = true from by simp [hw],
      if_pos (show 1 ≤ w ∧ w ≤ W by omega)]
    simp
  · have hbeq : (W == w) = false := by simp [Ne.symm hw]
    rw [hbeq]
    by_cases hm : w ∈ List.range' 1 (W - 1)
    · have hc := hmem.mp hm
      rw [List.count_eq_one_of_mem hnd hm,
        if_pos (show 1 ≤ w ∧ w ≤ W by omega)]
      simp
    · have hc : ¬ (1 ≤ w ∧ w ≤ W - 1) := fun hcc => hm (hmem.mpr hcc)
      rw [List.count_eq_zero_of_not_mem hm,
        if_neg (show ¬ (1 ≤ w ∧ w ≤ W) by omega)]
      simp

/-- Witness for C10 at a concrete input: the default week W = 6. -/
theorem C10_witness :
    (weeks_fed 6).count 3 = (if 1 ≤ 3 ∧ 3 ≤ 6 then 1 else 0)
    ∧ main_szn (fun _ => []) 6 = build_szn_to_date ((weeks_fed 6).map (fun _ => []))
    ∧ main_sos (fun _ => []) 6
        = build_sos_defense_vs_pos ((weeks_fed 6).map (fun _ => [])) :=
  C10_weeks_once 6 (by norm_num) 3 (fun _ => [])

end FDS
